import Mathlib

/-!
Shallow embedding of the batch translation and review pipeline of
`the-bible-translations` (Supabase edge functions
`src/supabase/new_language_add.js` and `src/supabase/import_words.js`,
plus the Vue client `src/src/views/DashboardPage.vue` where noted).
Pure data transformations are translated into Lean functions; the
external environment (HTTP transport, AI engine, store upserts) is made
explicit as a list of outcomes consumed by the retry / job loops.
-/

namespace Bible

/-! ## JavaScript string primitives

The edge functions use `String.prototype.trim`, `toLowerCase`,
`includes`, and `isNaN(Number(s))`.  These are embedded below for the
ASCII-plus-NBSP fragment actually exercised by the pipeline's data
(keys, notes and phrase lists are plain ASCII). -/

/-- The ECMAScript whitespace characters recognised by `trim` and by
`Number(string)` (ASCII whitespace, NBSP and the BOM). -/
def jsWhitespace (c : Char) : Bool :=
  c = ' ' || c = '\t' || c = '\n' || c = '\r' || c = '\x0b' || c = '\x0c' ||
  c = '\u00A0' || c = '\uFEFF'

/-- `String.prototype.trim`: strip leading and trailing whitespace. -/
def jsTrim (s : String) : String :=
  ⟨((s.data.dropWhile jsWhitespace).reverse.dropWhile jsWhitespace).reverse⟩

/-- `String.prototype.toLowerCase` (ASCII fragment). -/
def jsToLowerCase (s : String) : String :=
  ⟨s.data.map Char.toLower⟩

/-- Whether `w` occurs as a contiguous sublist of `l`. -/
def listContainsSub (l w : List Char) : Bool :=
  if w.isPrefixOf l then true
  else
    match l with
    | [] => false
    | _ :: t => listContainsSub t w

/-- `String.prototype.includes`: `jsIncludes s w` is `s.includes(w)`. -/
def jsIncludes (s w : String) : Bool :=
  listContainsSub s.data w.data

/-! ### `isNaN(Number(s))`

`Number(string)` accepts (after trimming whitespace) the empty string
(value `0`), an optionally signed decimal literal or `Infinity`, or an
unsigned hex / octal / binary integer literal; every other string gives
`NaN`.  `jsNumberIsNaN s` embeds `isNaN(Number(s))`. -/

/-- Exponent part continuation: optional sign followed by at least one
decimal digit, consuming the rest of the input. -/
def isSignedDigits (l : List Char) : Bool :=
  match l with
  | '+' :: r => r ≠ [] && r.all Char.isDigit
  | '-' :: r => r ≠ [] && r.all Char.isDigit
  | r => r ≠ [] && r.all Char.isDigit

/-- Either the empty rest or an exponent part `e`/`E` sign? digits. -/
def isExponentRest (l : List Char) : Bool :=
  match l with
  | [] => true
  | 'e' :: r => isSignedDigits r
  | 'E' :: r => isSignedDigits r
  | _ => false

/-- Unsigned ECMAScript `StrUnsignedDecimalLiteral`:
`Infinity`, `digits [. digits?] exponent?` or `. digits exponent?`. -/
def isUnsignedDecimal (l : List Char) : Bool :=
  if l = "Infinity".data then true
  else
    let ds := l.takeWhile Char.isDigit
    let rest := l.dropWhile Char.isDigit
    match rest with
    | [] => ds ≠ []
    | '.' :: r2 =>
        let ds2 := r2.takeWhile Char.isDigit
        let r3 := r2.dropWhile Char.isDigit
        (ds ≠ [] || ds2 ≠ []) && isExponentRest r3
    | 'e' :: r2 => ds ≠ [] && isSignedDigits r2
    | 'E' :: r2 => ds ≠ [] && isSignedDigits r2
    | _ => false

/-- Signed decimal literal. -/
def isStrDecimalLiteral (l : List Char) : Bool :=
  match l with
  | '+' :: r => isUnsignedDecimal r
  | '-' :: r => isUnsignedDecimal r
  | r => isUnsignedDecimal r

/-- Hex digit test. -/
def isHexDigit (c : Char) : Bool :=
  c.isDigit || ('a' ≤ c && c ≤ 'f') || ('A' ≤ c && c ≤ 'F')

/-- Unsigned non-decimal integer literal: `0x…`, `0o…` or `0b…`. -/
def isNonDecimalInteger (l : List Char) : Bool :=
  match l with
  | '0' :: 'x' :: r => r ≠ [] && r.all isHexDigit
  | '0' :: 'X' :: r => r ≠ [] && r.all isHexDigit
  | '0' :: 'o' :: r => r ≠ [] && r.all (fun c => '0' ≤ c && c ≤ '7')
  | '0' :: 'O' :: r => r ≠ [] && r.all (fun c => '0' ≤ c && c ≤ '7')
  | '0' :: 'b' :: r => r ≠ [] && r.all (fun c => c = '0' || c = '1')
  | '0' :: 'B' :: r => r ≠ [] && r.all (fun c => c = '0' || c = '1')
  | _ => false

/-- `isNaN(Number(s))`: true exactly when the trimmed string is
non-empty and not a numeric literal. -/
def jsNumberIsNaN (s : String) : Bool :=
  let t := ((s.data.dropWhile jsWhitespace).reverse.dropWhile jsWhitespace).reverse
  if t = [] then false
  else !(isStrDecimalLiteral t || isNonDecimalInteger t)

/-! ## Data model -/

/-- A row destined for the `translations` table (the bulk-upsert
payload element built by both edge functions).  The wall-clock
`last_updated` timestamp is outside the embedding. -/
structure TranslationRecord where
  translation_key : String
  language_code : String
  translated_text : String
  category : Option String
  deriving Repr, DecidableEq

/-- An entry of `report.review_items` (shape shared by both edge
functions: `lang, key, en, target, reason, type`). -/
structure ReviewItem where
  lang : String
  key : String
  en : String
  target : String
  reason : String
  itemType : String
  deriving Repr, DecidableEq

/-- Per-key metadata kept by `new_language_add.js`'s `metaMap`
(`category, source`) and by `import_words.js`'s `cleanDataMap`
(`source, category`). -/
structure Meta where
  source : String
  category : Option String
  deriving Repr, DecidableEq

/-! ## JS `Map` embedding

`Map.set` overwrites the value of an existing key in place (keeping the
original insertion position) and otherwise appends; iteration and
`Array.from(map.entries())` follow insertion order.  A `Map` is
embedded as an association list in insertion order. -/

/-- `Map.prototype.get` (first entry with the key; `mapSet`-built lists
have unique keys). -/
def jsMapGet {ν : Type} (m : List (String × ν)) (k : String) : Option ν :=
  match m with
  | [] => none
  | (k₀, v) :: rest => if k₀ = k then some v else jsMapGet rest k

/-- `Map.prototype.set`. -/
def mapSet {ν : Type} (m : List (String × ν)) (k : String) (v : ν) :
    List (String × ν) :=
  if m.any (fun p => p.1 = k) then
    m.map (fun p => if p.1 = k then (k, v) else p)
  else m ++ [(k, v)]

/-! ## AI engine output

`AIOutput` is the defensively decoded body of a transport-successful
AI call: `JSON.parse(aiResponse.choices[0].message.content)` wrapped in
try/catch, then `content.translations || \x7b\x7d` and
`content.notes || \x7b\x7d`.  Note values are strings in the fragment
the claims exercise; `import_words.js` additionally handles object
notes, embedded as `NoteVal.obj`. -/

/-- A note value as delivered by the model: a string or an object whose
values are joined by `". "` in `import_words.js`. -/
inductive NoteVal where
  | str (s : String)
  | obj (vs : List String)
  deriving Repr, DecidableEq

/-- The embedded payload of a transport-successful AI response, before
defensive decoding: either unparsable JSON or a parsed object whose
`translations` / `notes` fields may be absent. -/
inductive RawContent (ν : Type) where
  | malformed
  | valid (translations : Option (List (String × String)))
      (notes : Option (List (String × ν)))
  deriving Repr, DecidableEq

/-- Defensive decoding (both edge functions, `new_language_add.js`
lines 136-145 / `import_words.js` lines 140-149): a parse failure
becomes an output with no translations, and absent fields default to
empty objects. -/
def parseAIOutput {ν : Type} :
    RawContent ν → List (String × String) × List (String × ν)
  | .malformed => ([], [])
  | .valid t n => (t.getD [], n.getD [])

/-! ## ReviewClassifier — new-language pipeline

`new_language_add.js` lines 165-176, the per-matched-pair review
decision.  `note` is `notes[key] || null`: `none` stands for an absent
or falsy (empty) note. -/

/-- The identical-to-source test (`new_language_add.js` line 165,
`import_words.js` line 194): `translated === original &&
isNaN(Number(original)) && original.length > 1`. -/
def isIdenticalCheck (original translated : String) : Bool :=
  translated == original && jsNumberIsNaN original &&
    decide (1 < original.length)

/-- JS truthiness of an optional string note. -/
def noteTruthy (note : Option String) : Bool :=
  match note with
  | none => false
  | some s => s ≠ ""

/-- The review push of `new_language_add.js` lines 165-176: an item is
produced when the pair is identical-to-source or a truthy note exists;
its type is `"Untranslated"` exactly in the identical case and
`"AI Adaptation"` otherwise. -/
def classifyNew (lang key original translated : String)
    (note : Option String) : Option ReviewItem :=
  let isIdentical := isIdenticalCheck original translated
  if isIdentical || noteTruthy note then
    some { lang := lang, key := key, en := original, target := translated
           reason :=
             match note with
             | some s =>
                 if s ≠ "" then s
                 else if isIdentical then "Identical to English (No note provided)"
                 else "AI Note"
             | none =>
                 if isIdentical then "Identical to English (No note provided)"
                 else "AI Note"
           itemType := if isIdentical then "Untranslated" else "AI Adaptation" }
  else none

/-! ## ReconciliationUpserter — new-language pipeline

`new_language_add.js` lines 147-178: iterate the keys of
`content.translations`, trim each, keep only keys known to `metaMap`,
build the upsert payload and the review items. -/

/-- One batch's reconciliation: returns `(dbPayload, review items)` in
iteration order. -/
def reconcileNew (metaMap : List (String × Meta))
    (translations : List (String × String)) (notes : List (String × String))
    (target : String) : List TranslationRecord × List ReviewItem :=
  match translations with
  | [] => ([], [])
  | (k, translated) :: rest =>
      let prev := reconcileNew metaMap rest notes target
      let cleanKey := jsTrim k
      match jsMapGet metaMap cleanKey with
      | none => prev
      | some meta =>
          let note :=
            match jsMapGet notes k with
            | some s => if s = "" then none else some s
            | none => none
          let rec₀ : TranslationRecord :=
            { translation_key := cleanKey, language_code := target
              translated_text := translated, category := meta.category }
          match classifyNew target cleanKey meta.source translated note with
          | some item => (rec₀ :: prev.1, item :: prev.2)
          | none => (rec₀ :: prev.1, prev.2)

/-! ## Import pipeline — `import_words.js` -/

/-- `SENSITIVE_TERMS` (`import_words.js` lines 16-18). -/
def SENSITIVE_TERMS : List String :=
  ["Deck", "Driver", "Live Table", "Chest", "E-Power", "D-Power",
   "Checkpoint", "Gate"]

/-- Justification phrases of `isFalseAlarm` (lines 26-28). -/
def justificationWords : List String :=
  ["consistent", "adhere", "reflect", "followed", "according to",
   "standard translation", "glossary", "referring to"]

/-- Warning phrases of `isFalseAlarm` (lines 30-32). -/
def warningWords : List String :=
  ["untranslated", "kept in english", "ambiguous", "conflict", "unsure",
   "difficult", "literal", "imply", "implies", "anatomy"]

/-- `isFalseAlarm` (`import_words.js` lines 21-42).  The JS function
takes `string | null`; a null or empty (falsy) note returns `true`, and
this embedding folds the null case into the empty string. -/
def isFalseAlarm (note : String) : Bool :=
  if note = "" then true
  else
    let lowerNote := jsToLowerCase note
    let isJustification := justificationWords.any (fun w => jsIncludes lowerNote w)
    let isWarning := warningWords.any (fun w => jsIncludes lowerNote w)
    if isJustification && !isWarning then true else false

/-- `finalNote` computation (`import_words.js` lines 182-192): an
absent or falsy note yields `""`, a string note is used as is, an
object note joins its values with `". "`. -/
def finalNoteOf (rawNote : Option NoteVal) : String :=
  match rawNote with
  | none => ""
  | some (.str s) => s
  | some (.obj vs) => String.intercalate ". " vs

/-- `original.includes(term)` over the configured sensitive terms
(`import_words.js` line 195). -/
def containsSensitiveTerm (original : String) : Bool :=
  SENSITIVE_TERMS.any (fun term => jsIncludes original term)

/-- The per-item review decision of `import_words.js` lines 194-219:
sensitive-and-identical wins with type `"Untranslated Critical Term"`
regardless of the note; otherwise a truthy non-false-alarm note yields
type `"AI Warning"`; otherwise nothing. -/
def classifyImport (lang key original translated finalNote : String) :
    Option ReviewItem :=
  let isIdentical := isIdenticalCheck original translated
  let sensitive := containsSensitiveTerm original
  let isFalsePos := isFalseAlarm finalNote
  if sensitive && isIdentical then
    some { lang := lang, key := key, en := original, target := translated
           reason :=
             if finalNote ≠ "" then finalNote
             else "Term kept in English or Identical to Source."
           itemType := "Untranslated Critical Term" }
  else if finalNote ≠ "" && !isFalsePos then
    some { lang := lang, key := key, en := original, target := translated
           reason := finalNote, itemType := "AI Warning" }
  else none

/-- An input row of the import request body. -/
structure ImportRow where
  translation_key : String
  source_text : String
  category : Option String
  deriving Repr, DecidableEq

/-- The metadata stored for an import row (`import_words.js` lines
75-78): the source text and `row.category || null`. -/
def importRowMeta (row : ImportRow) : Meta :=
  { source := row.source_text
    category :=
      match row.category with
      | some c => if c = "" then none else some c
      | none => none }

/-- The `rows.forEach` loop building `cleanDataMap`
(`import_words.js` lines 72-80) with the mutable map made explicit. -/
def mkCleanDataMapAux : List ImportRow → List (String × Meta) →
    List (String × Meta)
  | [], m => m
  | row :: rest, m =>
      mkCleanDataMapAux rest
        (if row.translation_key ≠ "" && row.source_text ≠ "" then
          mapSet m (jsTrim row.translation_key) (importRowMeta row)
        else m)

/-- `cleanDataMap` construction (`import_words.js` lines 71-80): keep
rows with truthy key and source, trim the key, last occurrence wins via
`Map.set`. -/
def mkCleanDataMap (rows : List ImportRow) : List (String × Meta) :=
  mkCleanDataMapAux rows []

/-- `enPayload` (`import_words.js` lines 82-88): one English upsert row
per `cleanDataMap` entry. -/
def enPayload (rows : List ImportRow) : List TranslationRecord :=
  (mkCleanDataMap rows).map (fun p =>
    { translation_key := p.1, language_code := "en"
      translated_text := p.2.source, category := p.2.category })

/-- The `Object.keys(translations).forEach` loop building `payloadMap`
(`import_words.js` lines 153-164) with the mutable map made
explicit. -/
def mkPayloadMapAux (cleanDataMap : List (String × Meta)) (target : String) :
    List (String × String) → List (String × TranslationRecord) →
    List (String × TranslationRecord)
  | [], m => m
  | p :: rest, m =>
      mkPayloadMapAux cleanDataMap target rest
        (match jsMapGet cleanDataMap (jsTrim p.1) with
        | some d =>
            mapSet m (jsTrim p.1)
              { translation_key := jsTrim p.1, language_code := target
                translated_text := p.2, category := d.category }
        | none => m)

/-- `payloadMap` construction (`import_words.js` lines 151-164): for
each AI output key, trim it, keep it only when `cleanDataMap` knows it,
and `Map.set` the upsert row (collapsing keys that trim equal). -/
def mkPayloadMap (cleanDataMap : List (String × Meta))
    (translations : List (String × String)) (target : String) :
    List (String × TranslationRecord) :=
  mkPayloadMapAux cleanDataMap target translations []

/-- `transPayload = Array.from(payloadMap.values())`
(`import_words.js` line 166). -/
def transPayload (cleanDataMap : List (String × Meta))
    (translations : List (String × String)) (target : String) :
    List TranslationRecord :=
  (mkPayloadMap cleanDataMap translations target).map Prod.snd

/-- The review loop over `transPayload` (`import_words.js` lines
180-220).  The source reads `cleanDataMap.get(item.translation_key)`
unconditionally; a missing entry (impossible for payloads built by
`mkPayloadMap`) yields no item here. -/
def reviewImport (cleanDataMap : List (String × Meta))
    (notes : List (String × NoteVal)) (target : String)
    (payload : List TranslationRecord) : List ReviewItem :=
  payload.foldr
    (fun item acc =>
      match jsMapGet cleanDataMap item.translation_key with
      | none => acc
      | some d =>
          let finalNote := finalNoteOf (jsMapGet notes item.translation_key)
          match classifyImport target item.translation_key d.source
              item.translated_text finalNote with
          | some r => r :: acc
          | none => acc)
    []

/-! ## BatchChunker — `new_language_add.js` lines 85-89

The loop `for (i = 0; i < enRecords.length; i += BATCH_SIZE)` takes
`enRecords.slice(i, i + BATCH_SIZE)` per iteration.  `chunk` is the
same sequence of slices; a zero size (for which the source loop would
not terminate) yields no batches. -/

/-- `BATCH_SIZE` (`new_language_add.js` line 10). -/
def BATCH_SIZE : Nat := 60

/-- The slices produced by the batch loop for a positive size. -/
def chunk {α : Type} : List α → Nat → List (List α)
  | _, 0 => []
  | [], _ + 1 => []
  | x :: xs, n + 1 =>
      ((x :: xs).take (n + 1)) :: chunk ((x :: xs).drop (n + 1)) (n + 1)
termination_by l _ => l.length
decreasing_by simp [List.length_drop]; omega

/-! ## TranslationRequester / retry loop — `new_language_add.js` lines 99-198

The external world of one loop iteration is one `TransportOutcome`;
the retry loop consumes them in order. -/

/-- What one iteration of the while-loop observes: an HTTP 429, a
thrown error (network failure, non-ok status, or a failing
`completion.json()`), or a transport-successful response together with
whether the bulk upsert (if attempted) fails. -/
inductive TransportOutcome where
  | rateLimited
  | failure
  | ok (content : RawContent String) (upsertFails : Bool)
  deriving Repr, DecidableEq

/-- The observable result of one batch's retry loop. -/
structure BatchRun where
  success : Bool
  warned : Bool
  payload : List TranslationRecord
  reviews : List ReviewItem
  delays : List Nat
  deriving Repr, DecidableEq

/-- A batch run that performed nothing (loop exit without success). -/
def emptyRun : BatchRun :=
  { success := false, warned := false, payload := [], reviews := [], delays := [] }

/-- The while-loop of `new_language_add.js` lines 99-198 for one batch:
`retries` is the loop counter, `MAX_RETRIES = 5`.  A 429 sleeps 25000ms
and retries; a thrown error warns exactly when `retries === 4`, then
retries after a 2000ms sleep (skipped once the ceiling is reached); a
transport success reconciles, pushes review items (before the upsert),
and succeeds unless a non-empty payload's upsert fails. -/
def runBatch (metaMap : List (String × Meta)) (target : String) :
    List TransportOutcome → Nat → BatchRun
  | _, _ + 5 => emptyRun
  | [], _ => emptyRun
  | .rateLimited :: rest, retries =>
      let r := runBatch metaMap target rest (retries + 1)
      { r with delays := 25000 :: r.delays }
  | .failure :: rest, retries =>
      let r := runBatch metaMap target rest (retries + 1)
      { r with
        warned := (retries == 4) || r.warned
        delays := if retries + 1 < 5 then 2000 :: r.delays else r.delays }
  | .ok content upsertFails :: rest, retries =>
      let out := parseAIOutput content
      let pr := reconcileNew metaMap out.1 out.2 target
      if !pr.1.isEmpty && upsertFails then
        let r := runBatch metaMap target rest (retries + 1)
        { r with
          warned := (retries == 4) || r.warned
          reviews := pr.2 ++ r.reviews
          delays := if retries + 1 < 5 then 2000 :: r.delays else r.delays }
      else
        { success := true, warned := false, payload := pr.1
          reviews := pr.2, delays := [] }

/-! ## PipelineOrchestrator — new-language job -/

/-- The `report` object of `new_language_add.js` (warnings recorded as
batch numbers). -/
structure JobReport where
  processed_batches : Nat
  warnings : List Nat
  review_items : List ReviewItem
  deriving Repr, DecidableEq

/-- The for-loop over batches (`new_language_add.js` lines 85-203),
starting at batch number `batchNum`: every batch runs its retry loop
and the job continues regardless of the batch's outcome. -/
def runJobNewAux (target : String) :
    List (List (String × Meta) × List TransportOutcome) → Nat → JobReport
  | [], _ => { processed_batches := 0, warnings := [], review_items := [] }
  | (mm, env) :: rest, batchNum =>
      let b := runBatch mm target env 0
      let r := runJobNewAux target rest (batchNum + 1)
      { processed_batches := (if b.success then 1 else 0) + r.processed_batches
        warnings := (if b.warned then [batchNum] else []) ++ r.warnings
        review_items := b.reviews ++ r.review_items }

/-- The whole per-batch phase (batch numbers start at 1). -/
def runJobNew (target : String)
    (units : List (List (String × Meta) × List TransportOutcome)) : JobReport :=
  runJobNewAux target units 1

/-- The handler's terminal success response (`new_language_add.js`
lines 205-207): `success: true` with the accumulated report. -/
def newLanguageJobResponse (target : String)
    (units : List (List (String × Meta) × List TransportOutcome)) :
    Bool × JobReport :=
  (true, runJobNew target units)

/-! ## New-language request parsing and response shape — for C1 -/

/-- The request body the Vue client sends to the new-language function
(`DashboardPage.vue` line 400: `target_language` and `offset`). -/
structure NewLanguageRequest where
  target_language : Option String
  offset : Option Nat
  deriving Repr, DecidableEq

/-- `new_language_add.js` lines 23-25: only `target_language` is
destructured from the body; a falsy value throws.  `offset` is never
read. -/
def parseNewLanguageRequest (r : NewLanguageRequest) : Except String String :=
  match r.target_language with
  | some t => if t = "" then .error "Missing target_language" else .ok t
  | none => .error "Missing target_language"

/-- The batches the handler processes: every fetched English record,
sliced by `BATCH_SIZE`, independent of the request (`_r` is the parsed
request, whose `offset` the handler never consults). -/
def newLanguageWork {α : Type} (enRecords : List α)
    (_r : NewLanguageRequest) : List (List α) :=
  chunk enRecords BATCH_SIZE

/-- The JSON keys of the handler's success response
(`new_language_add.js` line 205: `JSON.stringify` of `success` and
`report`). -/
def newLanguageSuccessResponseKeys : List String :=
  ["success", "report"]

/-- The fields of the `LanguageEdgeResponse` type the repository's own
client declares for this endpoint (`DashboardPage.vue` lines 44-48). -/
def languageEdgeResponseFields : List String :=
  ["success", "finished", "next_offset", "report"]

/-! ## Import job loop — `import_words.js` lines 112-229 -/

/-- What one language's processing observes: a failure (non-ok
response, which pushes the warning `"AI Failed"` and continues, or any
thrown error caught by the per-language catch) or a
transport-successful response plus whether the bulk upsert fails. -/
inductive LangOutcome where
  | failure
  | ok (content : RawContent NoteVal) (upsertFails : Bool)

/-- The `report` of `import_words.js` (warnings recorded as language
codes). -/
structure ImportReport where
  processed : List String
  warnings : List String
  review_items : List ReviewItem
  deriving Repr, DecidableEq

/-- One language iteration (`import_words.js` lines 112-224): returns
its contributions `(processed, warnings, review items)`.  A language is
marked processed only when a non-empty payload upserts cleanly; review
items are computed from `transPayload` in every transport-success
path. -/
def runImportLang (cleanDataMap : List (String × Meta)) (lang : String) :
    LangOutcome → List String × List String × List ReviewItem
  | .failure => ([], [lang], [])
  | .ok content upsertFails =>
      let out := parseAIOutput content
      let payload := transPayload cleanDataMap out.1 lang
      let reviews := reviewImport cleanDataMap out.2 lang payload
      if !payload.isEmpty then
        if upsertFails then ([], [lang], reviews)
        else ([lang], [], reviews)
      else ([], [], reviews)

/-- The for-loop over languages: every language contributes and the
loop never aborts. -/
def runImportJob (cleanDataMap : List (String × Meta)) :
    List (String × LangOutcome) → ImportReport
  | [] => { processed := [], warnings := [], review_items := [] }
  | (lang, o) :: rest =>
      let c := runImportLang cleanDataMap lang o
      let r := runImportJob cleanDataMap rest
      { processed := c.1 ++ r.processed
        warnings := c.2.1 ++ r.warnings
        review_items := c.2.2 ++ r.review_items }

/-- The import handler's terminal success response (`import_words.js`
lines 231-233). -/
def importJobResponse (cleanDataMap : List (String × Meta))
    (langs : List (String × LangOutcome)) : Bool × ImportReport :=
  (true, runImportJob cleanDataMap langs)

/-! ## Spec-side descriptions for the last-occurrence-wins claim

The next two definitions follow the claim's words (`duplicate input
rows and AI output keys that trim to the same key collapse …, with the
last occurrence's value winning`), to be compared with the
`Map.set`-built structures above. -/

/-- The metadata of the last valid input row whose trimmed key is `k`
(claim wording for `cleanDataMap`). -/
def lastValidMeta (rows : List ImportRow) (k : String) : Option Meta :=
  (rows.reverse.find?
      (fun row =>
        row.translation_key ≠ "" && row.source_text ≠ "" &&
          jsTrim row.translation_key = k)).map importRowMeta

/-- The upsert row built from the last AI output entry whose trimmed
key is `k` and known to `cleanDataMap` (claim wording for
`payloadMap`). -/
def lastKnownRecordImport (cleanDataMap : List (String × Meta))
    (ts : List (String × String)) (target : String) (k : String) :
    Option TranslationRecord :=
  (ts.reverse.find?
      (fun p => (jsMapGet cleanDataMap (jsTrim p.1)).isSome && jsTrim p.1 = k)).map
    (fun p =>
      { translation_key := jsTrim p.1, language_code := target
        translated_text := p.2
        category :=
          match jsMapGet cleanDataMap (jsTrim p.1) with
          | some d => d.category
          | none => none })

/-! # Theorems -/

/-- The identical-to-source boolean unfolded into its three
conditions. -/
theorem isIdenticalCheck_iff (original translated : String) :
    isIdenticalCheck original translated = true ↔
      (translated = original ∧ jsNumberIsNaN original = true ∧
        1 < original.length) := by
  simp [isIdenticalCheck, Bool.and_eq_true, beq_iff_eq, decide_eq_true_iff,
    and_assoc]

set_option maxRecDepth 4000 in
/-- C5: the new-language review push produces an `"Untranslated"`-type
item exactly when the translation equals the source, the source is not
a numeric literal and the source's length exceeds 1; in particular the
pair `"5"/"5"` with no note yields nothing and the pair
`"Start Game"/"Start Game"` with no note yields an `"Untranslated"`
item. -/
theorem C5_identical_classifier (lang key original translated : String)
    (note : Option String) :
    ((∃ item, classifyNew lang key original translated note = some item ∧
        item.itemType = "Untranslated") ↔
      (translated = original ∧ jsNumberIsNaN original = true ∧
        1 < original.length)) ∧
    classifyNew lang key "5" "5" none = none ∧
    classifyNew lang key "Start Game" "Start Game" none =
      some { lang := lang, key := key, en := "Start Game"
             target := "Start Game"
             reason := "Identical to English (No note provided)"
             itemType := "Untranslated" } := by
  refine ⟨?_, ?_, ?_⟩
  · rw [← isIdenticalCheck_iff]
    by_cases h : isIdenticalCheck original translated
    · simp [classifyNew, h]
    · simp only [Bool.not_eq_true] at h
      simp only [classifyNew, h, Bool.false_or]
      cases hn : noteTruthy note <;> simp [h]
  · rfl
  · rfl

/-- C7: in the import pipeline, a source containing a configured
sensitive term whose identical-to-source check triggered is always
classified `"Untranslated Critical Term"`, whatever the note says. -/
theorem C7_sensitive_term_always_reported
    (lang key original translated finalNote : String)
    (hsens : containsSensitiveTerm original = true)
    (hid : isIdenticalCheck original translated = true) :
    classifyImport lang key original translated finalNote =
      some { lang := lang, key := key, en := original, target := translated
             reason :=
               if finalNote ≠ "" then finalNote
               else "Term kept in English or Identical to Source."
             itemType := "Untranslated Critical Term" } := by
  simp [classifyImport, hsens, hid]

/-- C7 witness: `"Driver"/"Driver"` with a pure-justification note is
still reported as `"Untranslated Critical Term"`. -/
theorem C7_sensitive_term_witness :
    classifyImport "de" "card.driver" "Driver" "Driver"
        "translated consistently per glossary" =
      some { lang := "de", key := "card.driver", en := "Driver"
             target := "Driver"
             reason := "translated consistently per glossary"
             itemType := "Untranslated Critical Term" } := by
  have h := C7_sensitive_term_always_reported "de" "card.driver" "Driver"
    "Driver" "translated consistently per glossary" (by decide) (by decide)
  simpa using h

/-- C6 counterexample: in the new-language pipeline a pure
justification note (`"translated consistently per glossary"`, which
contains the justification phrase `"consistent"` and no warning
phrase) still produces a note-driven ReviewItem, so the claimed
false-alarm suppression does not hold there. -/
theorem C6_counterexample_new_pipeline_no_suppression :
    (justificationWords.any (fun w =>
        jsIncludes (jsToLowerCase "translated consistently per glossary") w))
        = true ∧
    (warningWords.any (fun w =>
        jsIncludes (jsToLowerCase "translated consistently per glossary") w))
        = false ∧
    classifyNew "de" "k" "X" "Y" (some "translated consistently per glossary") =
      some { lang := "de", key := "k", en := "X", target := "Y"
             reason := "translated consistently per glossary"
             itemType := "AI Adaptation" } := by
  refine ⟨by decide, by decide, rfl⟩

/-- C6 amended: the false-alarm suppression exists only in the import
pipeline, where a non-empty note (with the sensitive-and-identical
branch not taken) yields no item exactly when it contains a
justification phrase and no warning phrase, and any produced
note-driven item has type `"AI Warning"`; in the new-language pipeline
every non-empty note on a non-identical pair yields an
`"AI Adaptation"` item. -/
theorem C6_false_alarm_only_in_import
    (lang key original translated note : String)
    (hnote : note ≠ "")
    (hni : ¬(containsSensitiveTerm original = true ∧
      isIdenticalCheck original translated = true)) :
    ((classifyImport lang key original translated note = none ↔
        (justificationWords.any (fun w =>
            jsIncludes (jsToLowerCase note) w) = true ∧
          warningWords.any (fun w =>
            jsIncludes (jsToLowerCase note) w) = false)) ∧
      (∀ item, classifyImport lang key original translated note = some item →
        item.itemType = "AI Warning")) ∧
    (isIdenticalCheck original translated = false →
      classifyNew lang key original translated (some note) =
        some { lang := lang, key := key, en := original, target := translated
               reason := note, itemType := "AI Adaptation" }) := by
  have hbranch : (containsSensitiveTerm original &&
      isIdenticalCheck original translated) = false := by
    cases hs : containsSensitiveTerm original <;>
      cases hi : isIdenticalCheck original translated <;>
        simp_all
  refine ⟨⟨?_, ?_⟩, ?_⟩
  · simp only [classifyImport, hbranch, Bool.false_eq_true, if_false,
      isFalseAlarm, hnote, if_neg hnote]
    cases hj : justificationWords.any (fun w => jsIncludes (jsToLowerCase note) w) <;>
      cases hw : warningWords.any (fun w => jsIncludes (jsToLowerCase note) w) <;>
        simp [hnote]
  · intro item
    simp only [classifyImport, hbranch, Bool.false_eq_true, if_false]
    split
    · intro h
      cases h
      rfl
    · intro h
      cases h
  · intro hid
    simp [classifyNew, hid, noteTruthy, hnote]

/-- C6 witness: a pure-justification note is suppressed in the import
pipeline, while a note with both a justification and a warning phrase
is reported as `"AI Warning"`; and the new-language side of the
amended claim at a concrete note. -/
theorem C6_false_alarm_witness :
    classifyImport "de" "k" "X" "Y" "translated consistently per glossary"
        = none ∧
    classifyNew "de" "k" "X" "Y" (some "kept in English, ambiguous term") =
      some { lang := "de", key := "k", en := "X", target := "Y"
             reason := "kept in English, ambiguous term"
             itemType := "AI Adaptation" } := by
  constructor
  · exact ((C6_false_alarm_only_in_import "de" "k" "X" "Y"
      "translated consistently per glossary" (by decide)
      (by intro h; exact absurd h.1 (by decide))).1.1).mpr (by decide)
  · exact (C6_false_alarm_only_in_import "de" "k" "X" "Y"
      "kept in English, ambiguous term" (by decide)
      (by intro h; exact absurd h.1 (by decide))).2 (by decide)

/-- C9: a transport-successful response whose embedded payload fails to
parse (or lacks the expected fields) decodes to an output with no
translations and no notes; the retry loop treats it as a success on the
spot (no retry, no warning, no backoff, empty upsert payload), and
reconciliation over it yields zero records and zero review items in
both pipelines. -/
theorem C9_malformed_payload_is_empty_output :
    (parseAIOutput (RawContent.malformed : RawContent String) = ([], []) ∧
      parseAIOutput (RawContent.malformed : RawContent NoteVal) = ([], []) ∧
      ∀ t, parseAIOutput (RawContent.valid (ν := String) none none) = ([], []) ∧
        parseAIOutput (RawContent.valid (ν := String) (some t) none) = (t, [])) ∧
    (∀ metaMap notes target,
      reconcileNew metaMap [] notes target = ([], [])) ∧
    (∀ metaMap target rest upsertFails,
      runBatch metaMap target (.ok .malformed upsertFails :: rest) 0 =
        { success := true, warned := false, payload := [], reviews := []
          delays := [] }) ∧
    (∀ cleanDataMap target,
      transPayload cleanDataMap [] target = [] ∧
      reviewImport cleanDataMap [] target [] = []) ∧
    (∀ cleanDataMap lang upsertFails,
      runImportLang cleanDataMap lang (.ok .malformed upsertFails) =
        ([], [], [])) := by
  refine ⟨⟨rfl, rfl, fun t => ⟨rfl, rfl⟩⟩, fun _ _ _ => rfl,
    fun _ _ _ _ => rfl, fun _ _ => ⟨rfl, rfl⟩, fun _ _ _ => rfl⟩

/-- An entry of a `mapSet` result is an entry of the old map or the
newly set pair. -/
theorem mem_mapSet {ν : Type} {m : List (String × ν)} {k : String} {v : ν}
    {p : String × ν} (h : p ∈ mapSet m k v) : p ∈ m ∨ p = (k, v) := by
  unfold mapSet at h
  split at h
  · rcases List.mem_map.mp h with ⟨q, hq, hq2⟩
    by_cases hqk : q.1 = k
    · right
      rw [← hq2]
      simp [hqk]
    · left
      rw [← hq2]
      simpa [hqk] using hq
  · rcases List.mem_append.mp h with h1 | h1
    · left; exact h1
    · right; simpa using h1

/-- Invariant of the `payloadMap` loop: every entry's record key is the
entry's map key, and `cleanDataMap` knows it. -/
theorem mkPayloadMapAux_inv (cleanDataMap : List (String × Meta))
    (target : String) :
    ∀ (ts : List (String × String)) (acc : List (String × TranslationRecord)),
      (∀ q ∈ acc, (jsMapGet cleanDataMap q.2.translation_key).isSome = true ∧
        q.2.translation_key = q.1) →
      ∀ p ∈ mkPayloadMapAux cleanDataMap target ts acc,
        (jsMapGet cleanDataMap p.2.translation_key).isSome = true ∧
          p.2.translation_key = p.1 := by
  intro ts
  induction ts with
  | nil => intro acc hacc p hp; exact hacc p hp
  | cons e rest ih =>
      intro acc hacc p hp
      rw [mkPayloadMapAux] at hp
      refine ih _ ?_ p hp
      intro q hq
      revert hq
      cases hm : jsMapGet cleanDataMap (jsTrim e.1) with
      | none => intro hq; exact hacc q hq
      | some d =>
          intro hq
          rcases mem_mapSet hq with hq1 | hq1
          · exact hacc q hq1
          · subst hq1
            exact ⟨by simp [hm], rfl⟩

/-- Every upsert record the new-language reconciliation builds has a
key present in the batch's `metaMap`. -/
theorem reconcileNew_key_known (metaMap : List (String × Meta))
    (notes : List (String × String)) (target : String) :
    ∀ (translations : List (String × String)) (r : TranslationRecord),
      r ∈ (reconcileNew metaMap translations notes target).1 →
        (jsMapGet metaMap r.translation_key).isSome = true := by
  intro translations
  induction translations with
  | nil => intro r hr; simp [reconcileNew] at hr
  | cons e rest ih =>
      intro r hr
      obtain ⟨k, translated⟩ := e
      rw [reconcileNew] at hr
      revert hr
      cases hm : jsMapGet metaMap (jsTrim k) with
      | none => intro hr; exact ih r hr
      | some meta =>
          simp only
          cases hclass : classifyNew target (jsTrim k) meta.source translated
              (match jsMapGet notes k with
                | some s => if s = "" then none else some s
                | none => none) with
          | some item =>
              intro hr
              rcases List.mem_cons.mp hr with hr1 | hr1
              · subst hr1; simp [hm]
              · exact ih r hr1
          | none =>
              intro hr
              rcases List.mem_cons.mp hr with hr1 | hr1
              · subst hr1; simp [hm]
              · exact ih r hr1

/-- C3: in both pipelines, reconciliation never emits a persistence
record whose (trimmed) key is unknown to the originating batch's key
map — unknown AI output keys are silently discarded. -/
theorem C3_unknown_keys_discarded :
    (∀ metaMap translations notes target (r : TranslationRecord),
      r ∈ (reconcileNew metaMap translations notes target).1 →
        (jsMapGet metaMap r.translation_key).isSome = true) ∧
    (∀ cleanDataMap translations target (r : TranslationRecord),
      r ∈ transPayload cleanDataMap translations target →
        (jsMapGet cleanDataMap r.translation_key).isSome = true) := by
  constructor
  · intro metaMap translations notes target r hr
    exact reconcileNew_key_known metaMap notes target translations r hr
  · intro cleanDataMap translations target r hr
    rcases List.mem_map.mp hr with ⟨p, hp, hpr⟩
    have := mkPayloadMapAux_inv cleanDataMap target translations []
      (by intro q hq; cases hq) p hp
    rw [← hpr]
    exact this.1

/-- C3 witness: a batch knowing only `greet` (respectively `title`)
keeps the matching trimmed output key and the claim's conclusion holds
for the record it emits, while hallucinated keys are dropped. -/
theorem C3_unknown_keys_witness :
    (jsMapGet [("greet", Meta.mk "Hello" none)] "greet").isSome = true ∧
    (jsMapGet [("title", Meta.mk "Home" (some "ui"))] "title").isSome = true := by
  constructor
  · exact C3_unknown_keys_discarded.1 [("greet", Meta.mk "Hello" none)]
      [("greet ", "Hallo"), (" evil", "x")] [] "de"
      { translation_key := "greet", language_code := "de"
        translated_text := "Hallo", category := none }
      (by decide)
  · exact C3_unknown_keys_discarded.2 [("title", Meta.mk "Home" (some "ui"))]
      [("title ", "Accueil"), ("bogus", "y")] "fr"
      { translation_key := "title", language_code := "fr"
        translated_text := "Accueil", category := some "ui" }
      (by decide)

/-- Concatenating the slices of the batch loop recovers the input. -/
theorem chunk_join {α : Type} : ∀ (l : List α) (n : Nat),
    (chunk l (n + 1)).flatten = l
  | [], _ => by rw [chunk]; rfl
  | x :: xs, n => by
      rw [chunk, List.flatten_cons,
        chunk_join ((x :: xs).drop (n + 1)) n]
      exact List.take_append_drop (n + 1) (x :: xs)
termination_by l _ => l.length
decreasing_by simp [List.length_drop]; omega

/-- Every slice of the batch loop except possibly the last has exactly
the configured size. -/
theorem chunk_sizes {α : Type} : ∀ (l : List α) (n : Nat),
    ∀ b ∈ (chunk l (n + 1)).dropLast, b.length = n + 1
  | [], _ => by
      intro b hb
      rw [chunk] at hb
      cases hb
  | x :: xs, n => by
      have ih := chunk_sizes ((x :: xs).drop (n + 1)) n
      intro b hb
      rw [chunk] at hb
      cases hd : (x :: xs).drop (n + 1) with
      | nil =>
          rw [hd] at hb
          rw [chunk] at hb
          cases hb
      | cons y ys =>
          rw [hd] at hb
          obtain ⟨c, cs, hc⟩ : ∃ c cs, chunk (y :: ys) (n + 1) = c :: cs :=
            ⟨_, _, by rw [chunk]⟩
          rw [hc, List.dropLast_cons₂] at hb
          rcases List.mem_cons.mp hb with hb1 | hb1
          · subst hb1
            have hlen : n + 1 < (x :: xs).length := by
              have hlen0 := congrArg List.length hd
              simp only [List.length_drop, List.length_cons] at hlen0
              simp only [List.length_cons]
              omega
            simp only [List.length_take]
            omega
          · rw [← hc, ← hd] at hb1
            exact ih b hb1
termination_by l _ => l.length
decreasing_by simp [List.length_drop]; omega

/-- C4: for every entry sequence and positive batch size, the batch
slices concatenate back to the original sequence in order (nothing
dropped or duplicated), every slice except possibly the last has
exactly the configured size, and the empty sequence yields no slices
rather than an error. -/
theorem C4_chunker {α : Type} (l : List α) (n : Nat) (h : 0 < n) :
    (chunk l n).flatten = l ∧
    (∀ b ∈ (chunk l n).dropLast, b.length = n) ∧
    chunk ([] : List α) n = [] := by
  obtain ⟨m, rfl⟩ : ∃ m, n = m + 1 := ⟨n - 1, by omega⟩
  exact ⟨chunk_join l m, chunk_sizes l m, by rw [chunk]⟩

/-- C4 witness: the chunker at size 2 on a five-element list. -/
theorem C4_chunker_witness :
    0 < 2 ∧ (chunk [1, 2, 3, 4, 5] 2).flatten = [1, 2, 3, 4, 5] :=
  ⟨by decide, (C4_chunker [1, 2, 3, 4, 5] 2 (by decide)).1⟩

/-- C2 counterexample: the 429 branch increments the same `retries`
counter as generic failures, so a batch that is rate-limited five times
exhausts the loop — waiting 25 seconds each time — and never reaches
the pending successful response, contradicting the claim that
rate-limit retries do not count toward the 5-attempt ceiling. -/
theorem C2_counterexample_rate_limits_count :
    (runBatch [] "de"
        (List.replicate 5 TransportOutcome.rateLimited ++
          [TransportOutcome.ok (RawContent.valid none none) false]) 0).success
      = false ∧
    (runBatch [] "de"
        (List.replicate 5 TransportOutcome.rateLimited ++
          [TransportOutcome.ok (RawContent.valid none none) false]) 0).delays
      = List.replicate 5 25000 := by
  exact ⟨rfl, rfl⟩

/-- C2 amended: a 429 response triggers a fixed 25-second cooldown and
a retry, but rate-limit retries share the 5-attempt ceiling with
generic failures: a request rate-limited at most 4 times and then
answered succeeds (with one 25s wait per 429), while 5 rate limits
exhaust the loop without success — and, unlike generic exhaustion,
without recording a warning. -/
theorem C2_amended_rate_limit_shares_ceiling :
    (∀ k, k < 5 → ∀ metaMap target content,
      (runBatch metaMap target
          (List.replicate k TransportOutcome.rateLimited ++
            [TransportOutcome.ok content false]) 0).success = true ∧
      (runBatch metaMap target
          (List.replicate k TransportOutcome.rateLimited ++
            [TransportOutcome.ok content false]) 0).delays =
        List.replicate k 25000) ∧
    (∀ metaMap target env,
      (runBatch metaMap target
          (List.replicate 5 TransportOutcome.rateLimited ++ env) 0).success
        = false ∧
      (runBatch metaMap target
          (List.replicate 5 TransportOutcome.rateLimited ++ env) 0).warned
        = false ∧
      (runBatch metaMap target
          (List.replicate 5 TransportOutcome.rateLimited ++ env) 0).delays
        = List.replicate 5 25000) := by
  constructor
  · intro k hk
    interval_cases k <;>
      (intro metaMap target content; constructor <;>
        simp [runBatch, List.replicate])
  · intro metaMap target env
    refine ⟨?_, ?_, ?_⟩ <;> simp [runBatch, List.replicate, emptyRun]

/-- C2 witness: four rate limits followed by a successful response
still succeed, after four 25-second waits. -/
theorem C2_amended_witness :
    (runBatch [] "de"
        (List.replicate 4 TransportOutcome.rateLimited ++
          [TransportOutcome.ok (RawContent.valid none none) false]) 0).success
      = true :=
  (C2_amended_rate_limit_shares_ceiling.1 4 (by decide) [] "de"
    (RawContent.valid none none)).1

/-- Five consecutive generic failures exhaust the retry ceiling: no
success, one warning (pushed on the fifth attempt), and a 2-second
backoff after each non-final failure. -/
theorem runBatch_five_failures (metaMap : List (String × Meta))
    (target : String) :
    runBatch metaMap target (List.replicate 5 TransportOutcome.failure) 0 =
      { success := false, warned := true, payload := [], reviews := []
        delays := [2000, 2000, 2000, 2000] } := by
  simp [runBatch, List.replicate, emptyRun]

/-- The per-batch loop's report contributions split over list
concatenation (with the batch counter shifted by the first part's
length). -/
theorem runJobNewAux_append (target : String) :
    ∀ (pre rest : List (List (String × Meta) × List TransportOutcome))
      (n : Nat),
      (runJobNewAux target (pre ++ rest) n).processed_batches =
        (runJobNewAux target pre n).processed_batches +
          (runJobNewAux target rest (n + pre.length)).processed_batches ∧
      (runJobNewAux target (pre ++ rest) n).warnings =
        (runJobNewAux target pre n).warnings ++
          (runJobNewAux target rest (n + pre.length)).warnings := by
  intro pre
  induction pre with
  | nil => intro rest n; simp [runJobNewAux]
  | cons u pre ih =>
      intro rest n
      obtain ⟨mm, env⟩ := u
      have h := ih rest (n + 1)
      have harith : n + 1 + pre.length = n + (pre.length + 1) := by omega
      rw [List.cons_append]
      constructor
      · simp only [runJobNewAux, List.length_cons, List.append_eq]
        rw [h.1, harith]
        omega
      · simp only [runJobNewAux, List.length_cons, List.append_eq]
        rw [h.2, harith]
        simp [List.append_assoc]

/-- The number of processed batches does not depend on the starting
batch number. -/
theorem runJobNewAux_processed_indep (target : String) :
    ∀ (units : List (List (String × Meta) × List TransportOutcome))
      (n m : Nat),
      (runJobNewAux target units n).processed_batches =
        (runJobNewAux target units m).processed_batches := by
  intro units
  induction units with
  | nil => intro n m; rfl
  | cons u rest ih =>
      intro n m
      obtain ⟨mm, env⟩ := u
      simp only [runJobNewAux]
      rw [ih (n + 1) (m + 1)]

/-- The import job's report contributions split over list
concatenation. -/
theorem runImportJob_append (cleanDataMap : List (String × Meta)) :
    ∀ (pre rest : List (String × LangOutcome)),
      (runImportJob cleanDataMap (pre ++ rest)).processed =
        (runImportJob cleanDataMap pre).processed ++
          (runImportJob cleanDataMap rest).processed ∧
      (runImportJob cleanDataMap (pre ++ rest)).warnings =
        (runImportJob cleanDataMap pre).warnings ++
          (runImportJob cleanDataMap rest).warnings := by
  intro pre
  induction pre with
  | nil => intro rest; simp [runImportJob]
  | cons u pre ih =>
      intro rest
      obtain ⟨lang, o⟩ := u
      constructor <;>
        simp [runImportJob, (ih rest).1, (ih rest).2, List.append_assoc]

/-- C8: a unit that exhausts its retries on generic failures (a batch
in the new-language job; a language in the import job, whose ceiling is
a single attempt) contributes a warning naming that unit, the job
continues through all remaining units, and the handler still answers
`success: true` with the warnings listed. -/
theorem C8_unit_failures_do_not_abort :
    (∀ target pre post (metaMap : List (String × Meta)),
      (newLanguageJobResponse target
          (pre ++ (metaMap, List.replicate 5 TransportOutcome.failure) :: post)).1
        = true ∧
      (pre.length + 1) ∈
        (newLanguageJobResponse target
            (pre ++ (metaMap, List.replicate 5 TransportOutcome.failure) :: post)).2.warnings ∧
      (newLanguageJobResponse target
          (pre ++ (metaMap, List.replicate 5 TransportOutcome.failure) :: post)).2.processed_batches
        = (runJobNew target pre).processed_batches +
            (runJobNew target post).processed_batches) ∧
    (∀ cleanDataMap pre post (lang : String),
      (importJobResponse cleanDataMap
          (pre ++ (lang, LangOutcome.failure) :: post)).1 = true ∧
      lang ∈ (importJobResponse cleanDataMap
          (pre ++ (lang, LangOutcome.failure) :: post)).2.warnings ∧
      (importJobResponse cleanDataMap
          (pre ++ (lang, LangOutcome.failure) :: post)).2.processed
        = (runImportJob cleanDataMap pre).processed ++
            (runImportJob cleanDataMap post).processed) := by
  constructor
  · intro target pre post metaMap
    refine ⟨rfl, ?_, ?_⟩
    · have h := (runJobNewAux_append target pre
        ((metaMap, List.replicate 5 TransportOutcome.failure) :: post) 1).2
      simp only [newLanguageJobResponse, runJobNew, h, runJobNewAux,
        runBatch_five_failures]
      refine List.mem_append_right _ ?_
      simp [Nat.add_comm]
    · have h := (runJobNewAux_append target pre
        ((metaMap, List.replicate 5 TransportOutcome.failure) :: post) 1).1
      simp only [newLanguageJobResponse, runJobNew, h, runJobNewAux,
        runBatch_five_failures]
      rw [runJobNewAux_processed_indep target post (1 + pre.length + 1) 1]
      simp
  · intro cleanDataMap pre post lang
    refine ⟨rfl, ?_, ?_⟩
    · have h := (runImportJob_append cleanDataMap pre
        ((lang, LangOutcome.failure) :: post)).2
      simp only [importJobResponse, h, runImportJob, runImportLang]
      refine List.mem_append_right _ ?_
      simp [runImportLang]
    · have h := (runImportJob_append cleanDataMap pre
        ((lang, LangOutcome.failure) :: post)).1
      simp only [importJobResponse, h, runImportJob, runImportLang]
      simp

/-- `mapSet` leaves the key sequence unchanged when the key is present
and appends the key otherwise. -/
theorem map_fst_mapSet {ν : Type} (m : List (String × ν)) (k : String)
    (v : ν) :
    (mapSet m k v).map Prod.fst =
      if m.any (fun p => p.1 = k) then m.map Prod.fst
      else m.map Prod.fst ++ [k] := by
  unfold mapSet
  split
  · rw [List.map_map]
    refine List.map_congr_left ?_
    intro p _
    by_cases hp : p.1 = k
    · simp [hp]
    · simp [hp]
  · simp

/-- `mapSet` preserves distinctness of keys. -/
theorem nodup_keys_mapSet {ν : Type} {m : List (String × ν)} {k : String}
    {v : ν} (h : (m.map Prod.fst).Nodup) :
    ((mapSet m k v).map Prod.fst).Nodup := by
  rw [map_fst_mapSet]
  split
  · exact h
  · rename_i hany
    rw [List.nodup_append]
    refine ⟨h, List.nodup_singleton k, ?_⟩
    intro a ha hak
    rcases List.mem_map.mp ha with ⟨p, hp, hpa⟩
    rcases List.mem_singleton.mp hak with rfl
    exact hany (List.any_eq_true.mpr ⟨p, hp, by simp [hpa]⟩)

/-- The `cleanDataMap` loop preserves distinctness of keys. -/
theorem mkCleanDataMapAux_nodup :
    ∀ (rows : List ImportRow) (m : List (String × Meta)),
      (m.map Prod.fst).Nodup →
      ((mkCleanDataMapAux rows m).map Prod.fst).Nodup := by
  intro rows
  induction rows with
  | nil => intro m h; exact h
  | cons row rest ih =>
      intro m h
      rw [mkCleanDataMapAux]
      refine ih _ ?_
      split
      · exact nodup_keys_mapSet h
      · exact h

/-- The `payloadMap` loop preserves distinctness of keys. -/
theorem mkPayloadMapAux_nodup (cleanDataMap : List (String × Meta))
    (target : String) :
    ∀ (ts : List (String × String)) (m : List (String × TranslationRecord)),
      (m.map Prod.fst).Nodup →
      ((mkPayloadMapAux cleanDataMap target ts m).map Prod.fst).Nodup := by
  intro ts
  induction ts with
  | nil => intro m h; exact h
  | cons e rest ih =>
      intro m h
      rw [mkPayloadMapAux]
      refine ih _ ?_
      cases jsMapGet cleanDataMap (jsTrim e.1) with
      | none => exact h
      | some d => exact nodup_keys_mapSet h

/-- Lookup through a list concatenation. -/
theorem jsMapGet_append {ν : Type} (m₁ m₂ : List (String × ν)) (k : String) :
    jsMapGet (m₁ ++ m₂) k =
      match jsMapGet m₁ k with
      | some v => some v
      | none => jsMapGet m₂ k := by
  induction m₁ with
  | nil => rfl
  | cons e rest ih =>
      obtain ⟨k₀, v₀⟩ := e
      by_cases h : k₀ = k
      · simp [jsMapGet, h]
      · simpa [jsMapGet, h] using ih

/-- Lookup after replacing the entries with key `k` by `(k, v)`. -/
theorem jsMapGet_replace {ν : Type} (m : List (String × ν)) (k : String)
    (v : ν) (j : String) :
    jsMapGet (m.map (fun p => if p.1 = k then (k, v) else p)) j =
      if j = k then (if m.any (fun p => p.1 = k) then some v else none)
      else jsMapGet m j := by
  induction m with
  | nil => simp [jsMapGet]
  | cons e rest ih =>
      obtain ⟨k₀, v₀⟩ := e
      show jsMapGet ((if k₀ = k then (k, v) else (k₀, v₀)) ::
          rest.map (fun p => if p.1 = k then (k, v) else p)) j =
        if j = k then
          (if (decide (k₀ = k) || rest.any (fun p => decide (p.1 = k))) = true
            then some v else none)
        else jsMapGet ((k₀, v₀) :: rest) j
      by_cases h0 : k₀ = k
      · rw [if_pos h0, decide_eq_true h0]
        by_cases hj : j = k
        · rw [if_pos hj]
          show (if k = j then some v else
              jsMapGet (rest.map (fun p => if p.1 = k then (k, v) else p)) j)
            = _
          rw [if_pos hj.symm]
          simp
        · rw [if_neg hj]
          show (if k = j then some v else
              jsMapGet (rest.map (fun p => if p.1 = k then (k, v) else p)) j)
            = _
          rw [if_neg (Ne.symm hj), ih, if_neg hj]
          show jsMapGet rest j =
            (if k₀ = j then some v₀ else jsMapGet rest j)
          rw [if_neg (by rw [h0]; exact Ne.symm hj)]
      · rw [if_neg h0, decide_eq_false h0]
        show (if k₀ = j then some v₀ else
            jsMapGet (rest.map (fun p => if p.1 = k then (k, v) else p)) j)
          = _
        by_cases hj : k₀ = j
        · rw [if_pos hj]
          have hjk : ¬j = k := by rw [← hj]; exact h0
          rw [if_neg hjk]
          show some v₀ = (if k₀ = j then some v₀ else jsMapGet rest j)
          rw [if_pos hj]
        · rw [if_neg hj, ih]
          by_cases hjk : j = k
          · rw [if_pos hjk, if_pos hjk, Bool.false_or]
          · rw [if_neg hjk, if_neg hjk]
            show jsMapGet rest j =
              (if k₀ = j then some v₀ else jsMapGet rest j)
            rw [if_neg hj]

/-- A key absent from the map looks up to `none`. -/
theorem jsMapGet_eq_none_of_not_mem {ν : Type} (m : List (String × ν))
    (k : String) (h : m.any (fun p => p.1 = k) = false) :
    jsMapGet m k = none := by
  induction m with
  | nil => rfl
  | cons e rest ih =>
      obtain ⟨k₀, v₀⟩ := e
      simp only [List.any_cons, Bool.or_eq_false_iff] at h
      have hk : ¬k₀ = k := by simpa using h.1
      simp [jsMapGet, hk, ih h.2]

/-- The characteristic equation of `Map.set`: the set key now maps to
the new value and every other key is untouched. -/
theorem jsMapGet_mapSet {ν : Type} (m : List (String × ν)) (k : String)
    (v : ν) (j : String) :
    jsMapGet (mapSet m k v) j = if j = k then some v else jsMapGet m j := by
  unfold mapSet
  cases hany : m.any (fun p => p.1 = k) with
  | true =>
      simp only [if_pos rfl, if_true]
      rw [jsMapGet_replace, hany]
      simp
  | false =>
      simp only [Bool.false_eq_true, if_false]
      rw [jsMapGet_append]
      by_cases hj : j = k
      · subst hj
        rw [jsMapGet_eq_none_of_not_mem m j hany]
        simp [jsMapGet]
      · cases hm : jsMapGet m j with
        | some w => simp [hm, hj]
        | none => simp [hm, hj, jsMapGet, Ne.symm hj]

/-- `find?` through a list concatenation. -/
theorem find?_append_eq {α : Type} (l₁ l₂ : List α) (p : α → Bool) :
    (l₁ ++ l₂).find? p =
      match l₁.find? p with
      | some a => some a
      | none => l₂.find? p := by
  induction l₁ with
  | nil => rfl
  | cons a rest ih =>
      by_cases h : p a
      · simp [List.find?, h]
      · simp only [Bool.not_eq_true] at h
        simp [List.find?, h, ih]

/-- Looking up the `cleanDataMap` loop's result returns the metadata of
the last valid row whose trimmed key matches. -/
theorem mkCleanDataMapAux_get :
    ∀ (rows : List ImportRow) (m : List (String × Meta)) (k : String),
      jsMapGet (mkCleanDataMapAux rows m) k =
        match rows.reverse.find? (fun row =>
            (row.translation_key ≠ "" && row.source_text ≠ "") &&
              jsTrim row.translation_key = k) with
        | some row => some (importRowMeta row)
        | none => jsMapGet m k := by
  intro rows
  induction rows with
  | nil => intro m k; rfl
  | cons row rest ih =>
      intro m k
      rw [mkCleanDataMapAux, ih, List.reverse_cons, find?_append_eq]
      cases hfind : rest.reverse.find? (fun row =>
          (row.translation_key ≠ "" && row.source_text ≠ "") &&
            jsTrim row.translation_key = k) with
      | some r => rfl
      | none =>
          show jsMapGet
              (if row.translation_key ≠ "" && row.source_text ≠ "" then
                mapSet m (jsTrim row.translation_key) (importRowMeta row)
              else m) k = _
          by_cases hv : (row.translation_key ≠ "" && row.source_text ≠ "")
            = true
          · rw [if_pos hv, jsMapGet_mapSet]
            simp only [decide_not] at hv
            by_cases ht : jsTrim row.translation_key = k
            · rw [if_pos ht.symm]
              simp [List.find?, hv, decide_eq_true ht]
            · rw [if_neg (fun h => ht h.symm)]
              simp [List.find?, decide_eq_false ht]
          · rw [if_neg hv]
            simp only [Bool.not_eq_true] at hv
            simp only [decide_not] at hv
            simp [List.find?, hv]

/-- Looking up the `payloadMap` loop's result returns the upsert row of
the last known AI output entry whose trimmed key matches. -/
theorem mkPayloadMapAux_get (cleanDataMap : List (String × Meta))
    (target : String) :
    ∀ (ts : List (String × String))
      (m : List (String × TranslationRecord)) (k : String),
      jsMapGet (mkPayloadMapAux cleanDataMap target ts m) k =
        match ts.reverse.find? (fun p =>
            (jsMapGet cleanDataMap (jsTrim p.1)).isSome &&
              jsTrim p.1 = k) with
        | some p =>
            some { translation_key := jsTrim p.1, language_code := target
                   translated_text := p.2
                   category :=
                     match jsMapGet cleanDataMap (jsTrim p.1) with
                     | some d => d.category
                     | none => none }
        | none => jsMapGet m k := by
  intro ts
  induction ts with
  | nil => intro m k; rfl
  | cons e rest ih =>
      intro m k
      rw [mkPayloadMapAux, ih, List.reverse_cons, find?_append_eq]
      cases hfind : rest.reverse.find? (fun p =>
          (jsMapGet cleanDataMap (jsTrim p.1)).isSome &&
            jsTrim p.1 = k) with
      | some r => rfl
      | none =>
          cases hd : jsMapGet cleanDataMap (jsTrim e.1) with
          | none => simp [List.find?, hd]
          | some d =>
              rw [jsMapGet_mapSet]
              by_cases ht : jsTrim e.1 = k
              · rw [if_pos ht.symm]
                simp [List.find?, hd, decide_eq_true ht]
              · rw [if_neg (fun h => ht h.symm)]
                simp [List.find?, decide_eq_false ht]

/-- C10: both import bulk-upsert payloads contain at most one record
per trimmed key — the English payload over the input rows and the
per-language payload over the AI output — and the `Map.set` insertion
makes the last occurrence win, as described by `lastValidMeta` and
`lastKnownRecordImport`. -/
theorem C10_upsert_payload_dedup :
    (∀ rows, ((enPayload rows).map
        (fun r => r.translation_key)).Nodup ∧
      ∀ k, jsMapGet (mkCleanDataMap rows) k = lastValidMeta rows k) ∧
    (∀ cleanDataMap translations target,
      ((transPayload cleanDataMap translations target).map
          (fun r => r.translation_key)).Nodup ∧
      ∀ k, jsMapGet (mkPayloadMap cleanDataMap translations target) k =
        lastKnownRecordImport cleanDataMap translations target k) := by
  constructor
  · intro rows
    constructor
    · have hkeys : (enPayload rows).map (fun r => r.translation_key) =
          (mkCleanDataMap rows).map Prod.fst := by
        rw [enPayload, List.map_map]
        rfl
      rw [hkeys]
      exact mkCleanDataMapAux_nodup rows [] (by simp)
    · intro k
      rw [mkCleanDataMap, mkCleanDataMapAux_get rows [] k, lastValidMeta]
      cases rows.reverse.find? (fun row =>
          (row.translation_key ≠ "" && row.source_text ≠ "") &&
            jsTrim row.translation_key = k) <;> rfl
  · intro cleanDataMap translations target
    constructor
    · have hagree := mkPayloadMapAux_inv cleanDataMap target translations []
        (by intro q hq; cases hq)
      have hkeys : (transPayload cleanDataMap translations target).map
          (fun r => r.translation_key) =
            (mkPayloadMap cleanDataMap translations target).map Prod.fst := by
        rw [transPayload, List.map_map]
        refine List.map_congr_left ?_
        intro p hp
        exact (hagree p hp).2
      rw [hkeys]
      exact mkPayloadMapAux_nodup cleanDataMap target translations []
        (by simp)
    · intro k
      rw [mkPayloadMap,
        mkPayloadMapAux_get cleanDataMap target translations [] k,
        lastKnownRecordImport]
      cases translations.reverse.find? (fun p =>
          (jsMapGet cleanDataMap (jsTrim p.1)).isSome &&
            jsTrim p.1 = k) <;> rfl

/-- C1: the new-language handler does not implement offset-based
resumption.  A request carrying `offset: 120` parses fine (only
`target_language` is read), the work set is the same whatever offset is
sent, the success response has no `finished` and no `next_offset` key —
although the repository's own client declares both fields for this
endpoint — and with 2 records and the out-of-range offset 120 the
handler still processes both records instead of doing zero work and
reporting `finished: true`. -/
theorem C1_no_offset_resumption :
    parseNewLanguageRequest
        { target_language := some "de", offset := some 120 } =
      Except.ok "de" ∧
    (∀ (enRecords : List Nat) (r₁ r₂ : NewLanguageRequest),
      newLanguageWork enRecords r₁ = newLanguageWork enRecords r₂) ∧
    "finished" ∉ newLanguageSuccessResponseKeys ∧
    "next_offset" ∉ newLanguageSuccessResponseKeys ∧
    "finished" ∈ languageEdgeResponseFields ∧
    "next_offset" ∈ languageEdgeResponseFields ∧
    (newLanguageWork [10, 20]
        { target_language := some "de", offset := some 120 }).flatten =
      [10, 20] := by
  refine ⟨rfl, fun _ _ _ => rfl, by decide, by decide, by decide, by decide,
    ?_⟩
  exact chunk_join [10, 20] 59

end Bible
